import Mathlib

/-!
# VIN validation utilities — a shallow embedding

This file embeds the VIN (vehicle identification number) utilities of the
repository — `transliterate`, `computeVINCheckDigit`, `isValidVIN` and
`extractVIN` — as Lean functions over `List Char` (a JavaScript string is
modelled as its list of characters, a nullable string as `Option (List Char)`),
and proves the specified properties about them.
-/

namespace VINScanner

/-- Characters removed by the trim step (models `String.prototype.trim` on the
common whitespace characters: space, tab, line feed, vertical tab, form feed,
carriage return, no-break space). -/
def jsWhitespace (c : Char) : Bool :=
  decide (c.toNat = 32 ∨ c.toNat = 9 ∨ c.toNat = 10 ∨ c.toNat = 11 ∨
    c.toNat = 12 ∨ c.toNat = 13 ∨ c.toNat = 160)

/-- `String.prototype.trim`: drop leading and trailing whitespace. -/
def trim (s : List Char) : List Char :=
  ((s.dropWhile jsWhitespace).reverse.dropWhile jsWhitespace).reverse

/-- Characterwise model of `String.prototype.toUpperCase` (ASCII range). -/
def toUpperChar (c : Char) : Char :=
  if 97 ≤ c.toNat ∧ c.toNat ≤ 122 then Char.ofNat (c.toNat - 32) else c

/-- Characterwise model of `String.prototype.toLowerCase` (ASCII range). -/
def toLowerChar (c : Char) : Char :=
  if 65 ≤ c.toNat ∧ c.toNat ≤ 90 then Char.ofNat (c.toNat + 32) else c

/-- The object literal `map` inside `transliterate` in the source. -/
def translitMap : List (Char × Nat) :=
  [('A', 1), ('B', 2), ('C', 3), ('D', 4), ('E', 5), ('F', 6), ('G', 7), ('H', 8),
   ('J', 1), ('K', 2), ('L', 3), ('M', 4), ('N', 5), ('P', 7), ('R', 9),
   ('S', 2), ('T', 3), ('U', 4), ('V', 5), ('W', 6), ('X', 7), ('Y', 8), ('Z', 9)]

/-- `transliterate(ch)`: a decimal digit maps to its value
(`/[0-9]/.test(ch)` then `parseInt(ch, 10)`); otherwise the character is
looked up in the object literal, any unmapped key yielding 0 (`map[ch] || 0`). -/
def transliterate (c : Char) : Nat :=
  if 48 ≤ c.toNat ∧ c.toNat ≤ 57 then c.toNat - 48
  else (translitMap.lookup c).getD 0

/-- The `weights` array of `computeVINCheckDigit`. -/
def weights : List Nat := [8, 7, 6, 5, 4, 3, 2, 10, 0, 9, 8, 7, 6, 5, 4, 3, 2]

/-- One loop iteration of `computeVINCheckDigit`:
`transliterate(vinUpper[i]) * weights[i]`.  Indexing a JavaScript string past
its end yields `undefined`, which `transliterate` sends to 0; the `none` branch
models that. -/
def contrib (vinUpper : List Char) (i : Nat) : Nat :=
  (match vinUpper[i]? with
   | some c => transliterate c
   | none => 0) * weights.getD i 0

/-- The `for (let i = 0; i < 17; i++)` loop of `computeVINCheckDigit`,
accumulating `sum`. -/
def vinSum (vinUpper : List Char) : Nat :=
  (List.range 17).foldl (fun acc i => acc + contrib vinUpper i) 0

/-- `computeVINCheckDigit(vin)`: uppercase the input, accumulate
`transliterate(vinUpper[i]) * weights[i]` for `i = 0 .. 16`, reduce mod 11,
and render remainder 10 as `'X'` and any other remainder as its digit
character (`String(rem)`). -/
def computeVINCheckDigit (vin : List Char) : Char :=
  let rem := vinSum (vin.map toUpperChar) % 11
  if rem = 10 then 'X' else Char.ofNat (48 + rem)

/-- `isValidVIN(vin)`: `null`/`undefined` (and the falsy empty string) are
rejected, the input is trimmed and uppercased, the result must be exactly 17
characters, contain none of `I`, `O`, `Q`, and carry the computed check digit
at index 8. -/
def isValidVIN (vin : Option (List Char)) : Bool :=
  match vin with
  | none => false
  | some v =>
    if v.isEmpty then false
    else
      let vinTrimmed := (trim v).map toUpperChar
      if vinTrimmed.length ≠ 17 then false
      else if vinTrimmed.any (fun c => c == 'I' || c == 'O' || c == 'Q') then false
      else vinTrimmed[8]? == some (computeVINCheckDigit vinTrimmed)

/-- The character class `[A-Za-z0-9]` of the normalization regex. -/
def isAlnumAscii (c : Char) : Bool :=
  decide ((48 ≤ c.toNat ∧ c.toNat ≤ 57) ∨ (65 ≤ c.toNat ∧ c.toNat ≤ 90) ∨
    (97 ≤ c.toNat ∧ c.toNat ≤ 122))

/-- `text.replace(/[^A-Za-z0-9]/g, '').toUpperCase()`. -/
def cleanText (text : List Char) : List Char :=
  (text.filter isAlnumAscii).map toUpperChar

/-- `cleaned.substring(i, i + 17)`. -/
def window (s : List Char) (i : Nat) : List Char := (s.drop i).take 17

/-- One iteration of the search loop of `extractVIN`: take the candidate
window at offset `i` and return it when `isValidVIN` accepts it. -/
def extractCandidate (cleaned : List Char) (i : Nat) : Option (List Char) :=
  if isValidVIN (some (window cleaned i)) then some (window cleaned i) else none

/-- `extractVIN(text)`: normalize, then scan 17-character windows at offsets
`0 .. cleaned.length - 17` in increasing order, returning the first candidate
that `isValidVIN` accepts, or `null` when none does.  (For a cleaned string
shorter than 17 characters the truncated subtraction makes the offset range
empty, exactly as the JavaScript loop bound `i <= cleaned.length - 17` with a
negative right side runs zero iterations.) -/
def extractVIN (text : List Char) : Option (List Char) :=
  (List.range ((cleanText text).length + 1 - 17)).findSome?
    (extractCandidate (cleanText text))

/-- The published weight vector, as the spec lists it. -/
def specWeights : List Nat := [8, 7, 6, 5, 4, 3, 2, 10, 0, 9, 8, 7, 6, 5, 4, 3, 2]

/-- The check-digit algorithm as the spec words it (a second definition, to be
compared with `computeVINCheckDigit`): uppercase the input; for each position
`i` in `0..16` multiply the transliterated value of character `i` by the
`i`-th entry of the published weight vector and accumulate; take the sum mod
11; return `'X'` for remainder 10 and otherwise the decimal digit character of
the remainder. -/
def specCheckDigit (vin : List Char) : Char :=
  let up := vin.map toUpperChar
  let sum := ((List.range 17).map fun i =>
    transliterate (up.getD i ' ') * specWeights.getD i 0).sum
  if sum % 11 = 10 then 'X' else Char.ofNat (48 + sum % 11)

/-! ## Helper lemmas -/

/-- Folding an accumulating addition is summing the mapped list. -/
lemma foldl_add_sum (f : Nat → Nat) (l : List Nat) (a : Nat) :
    l.foldl (fun acc i => acc + f i) a = a + (l.map f).sum := by
  induction l generalizing a with
  | nil => simp
  | cons x xs ih => simp [ih, Nat.add_assoc]

/-- The loop sum is the sum of the 17 contributions. -/
lemma vinSum_eq_sum (u : List Char) :
    vinSum u = ((List.range 17).map (contrib u)).sum := by
  unfold vinSum
  rw [foldl_add_sum (contrib u) (List.range 17) 0, Nat.zero_add]

/-- `vinSum` only depends on the 17 loop contributions. -/
lemma vinSum_congr {u v : List Char} (h : ∀ i < 17, contrib u i = contrib v i) :
    vinSum u = vinSum v := by
  rw [vinSum_eq_sum, vinSum_eq_sum]
  exact congrArg List.sum
    (List.map_congr_left fun i hi => h i (List.mem_range.mp hi))

/-- `computeVINCheckDigit` only depends on the accumulated sum. -/
lemma computeVINCheckDigit_congr {s t : List Char}
    (h : vinSum (s.map toUpperChar) = vinSum (t.map toUpperChar)) :
    computeVINCheckDigit s = computeVINCheckDigit t := by
  unfold computeVINCheckDigit
  rw [h]

/-- `Char.ofNat` on a value below the surrogate range round-trips to `toNat`. -/
lemma toNat_ofNat_valid (n : Nat) (h : n < 55296) : (Char.ofNat n).toNat = n := by
  rw [Char.ofNat, dif_pos (Or.inl h)]
  rfl

/-- Uppercasing after lowercasing is the same as uppercasing directly. -/
lemma toUpperChar_toLowerChar (c : Char) : toUpperChar (toLowerChar c) = toUpperChar c := by
  by_cases h : 65 ≤ c.toNat ∧ c.toNat ≤ 90
  · have h1 : toLowerChar c = Char.ofNat (c.toNat + 32) := by
      simp only [toLowerChar, if_pos h]
    have hv : (Char.ofNat (c.toNat + 32)).toNat = c.toNat + 32 :=
      toNat_ofNat_valid _ (by omega)
    have h2 : toUpperChar (Char.ofNat (c.toNat + 32)) = Char.ofNat (c.toNat + 32 - 32) := by
      simp only [toUpperChar, hv, if_pos (by omega : 97 ≤ c.toNat + 32 ∧ c.toNat + 32 ≤ 122)]
    have h3 : toUpperChar c = c := by
      simp only [toUpperChar, if_neg (by omega : ¬(97 ≤ c.toNat ∧ c.toNat ≤ 122))]
    have h4 : c.toNat + 32 - 32 = c.toNat := by omega
    rw [h1, h2, h3, h4, Char.ofNat_toNat]
  · have h1 : toLowerChar c = c := by simp only [toLowerChar, if_neg h]
    rw [h1]

/-- A character that is not an ASCII lowercase letter is fixed by `toUpperChar`. -/
lemma toUpperChar_eq_self {c : Char} (h : ¬(97 ≤ c.toNat ∧ c.toNat ≤ 122)) :
    toUpperChar c = c := by
  simp only [toUpperChar, if_neg h]

/-- `dropWhile` does nothing when no element satisfies the predicate. -/
lemma dropWhile_eq_self {p : Char → Bool} {s : List Char} (h : ∀ c ∈ s, p c = false) :
    s.dropWhile p = s := by
  cases s with
  | nil => rfl
  | cons a t => simp [List.dropWhile_cons, h a (List.mem_cons_self a t)]

/-- `trim` does nothing on a string without whitespace characters. -/
lemma trim_eq_self {s : List Char} (h : ∀ c ∈ s, jsWhitespace c = false) : trim s = s := by
  unfold trim
  rw [dropWhile_eq_self h,
    dropWhile_eq_self (fun c hc => h c (List.mem_reverse.mp hc)), List.reverse_reverse]

/-- Association-list lookup misses when the key differs from every stored key. -/
lemma lookup_eq_none_of {c : Char} {l : List (Char × Nat)} (h : ∀ p ∈ l, c ≠ p.1) :
    l.lookup c = none := by
  induction l with
  | nil => rfl
  | cons p t ih =>
    have hne : (c == p.1) = false := beq_eq_false_iff_ne.mpr (h p (List.mem_cons_self p t))
    simp only [List.lookup, hne]
    exact ih fun q hq => h q (List.mem_cons_of_mem p hq)

/-- When the candidate is untouched by trimming and uppercasing, is nonempty,
has length 17 and passes the `I`/`O`/`Q` filter, `isValidVIN` is exactly the
check-digit comparison. -/
lemma isValidVIN_of_clean {s : List Char} (htrim : trim s = s)
    (hup : s.map toUpperChar = s) (hne : s.isEmpty = false) (hlen : s.length = 17)
    (hany : s.any (fun c => c == 'I' || c == 'O' || c == 'Q') = false) :
    isValidVIN (some s) = (s[8]? == some (computeVINCheckDigit s)) := by
  unfold isValidVIN
  simp only [htrim, hup, hne, hlen, hany, Bool.false_eq_true, if_false, ne_eq,
    not_true_eq_false]

/-- A candidate untouched by trimming and uppercasing that contains one of
`I`, `O`, `Q` is rejected. -/
lemma isValidVIN_false_of_ioq {v : List Char} (htrim : trim v = v)
    (hup : v.map toUpperChar = v)
    (hany : v.any (fun c => c == 'I' || c == 'O' || c == 'Q') = true) :
    isValidVIN (some v) = false := by
  unfold isValidVIN
  cases hv : v.isEmpty with
  | true => simp [hv]
  | false =>
    by_cases hlen : ((trim v).map toUpperChar).length = 17
    · simp [hv, htrim, hup, hlen, hany]
    · rw [htrim, hup] at hlen
      simp [hv, htrim, hup, hlen]

/-! ## The claims -/

/-- C4: `transliterate` is total over characters and computes exactly the fixed
table: each decimal digit character yields its integer value, each letter of
the table yields its table value, and every other character (including `I`,
`O`, `Q` and non-alphanumeric characters) yields 0 — there is no failure
path. -/
theorem transliterate_spec (c : Char) :
    (∀ d : Nat, d < 10 → transliterate (Char.ofNat (48 + d)) = d) ∧
    (transliterate 'A' = 1 ∧ transliterate 'B' = 2 ∧ transliterate 'C' = 3 ∧
     transliterate 'D' = 4 ∧ transliterate 'E' = 5 ∧ transliterate 'F' = 6 ∧
     transliterate 'G' = 7 ∧ transliterate 'H' = 8 ∧ transliterate 'J' = 1 ∧
     transliterate 'K' = 2 ∧ transliterate 'L' = 3 ∧ transliterate 'M' = 4 ∧
     transliterate 'N' = 5 ∧ transliterate 'P' = 7 ∧ transliterate 'R' = 9 ∧
     transliterate 'S' = 2 ∧ transliterate 'T' = 3 ∧ transliterate 'U' = 4 ∧
     transliterate 'V' = 5 ∧ transliterate 'W' = 6 ∧ transliterate 'X' = 7 ∧
     transliterate 'Y' = 8 ∧ transliterate 'Z' = 9) ∧
    (transliterate 'I' = 0 ∧ transliterate 'O' = 0 ∧ transliterate 'Q' = 0) ∧
    (¬(48 ≤ c.toNat ∧ c.toNat ≤ 57) → (∀ p ∈ translitMap, c ≠ p.1) →
      transliterate c = 0) := by
  refine ⟨by decide, by decide, by decide, fun hd ht => ?_⟩
  simp only [transliterate, if_neg hd, lookup_eq_none_of ht, Option.getD_none]

/-- Witness for C4 at the concrete character `#`. -/
theorem transliterate_spec_witness : transliterate '#' = 0 :=
  (transliterate_spec '#').2.2.2 (by decide) (by decide)

/-- C7: on the concrete noisy input `"Label:ABC 1HGBH41JXMN109186 End"`,
`extractVIN` returns exactly the embedded known-valid VIN
`"1HGBH41JXMN109186"`, whose check digit at index 8 is `'X'`. -/
theorem extractVIN_label_example :
    extractVIN ("Label:ABC 1HGBH41JXMN109186 End".data) =
      some ("1HGBH41JXMN109186".data) ∧
    ("1HGBH41JXMN109186".data)[8]? = some 'X' ∧
    computeVINCheckDigit ("1HGBH41JXMN109186".data) = 'X' ∧
    isValidVIN (some ("1HGBH41JXMN109186".data)) = true := by decide

/-- C8: `isValidVIN` does not require alphanumeric characters: the
17-character string `"#0000000000000000"` contains `#`, which is neither a
digit nor an uppercase letter, yet it is accepted, because `#` transliterates
to 0 and only `I`, `O`, `Q` are filtered out. -/
theorem isValidVIN_accepts_nonalnum :
    ("#0000000000000000".data).length = 17 ∧
    (∃ c ∈ "#0000000000000000".data,
      ¬((48 ≤ c.toNat ∧ c.toNat ≤ 57) ∨ (65 ≤ c.toNat ∧ c.toNat ≤ 90))) ∧
    isValidVIN (some ("#0000000000000000".data)) = true := by decide

/-- C5: `isValidVIN` returns false (and cannot throw — it is a total Lean
function) on a `null`/`undefined` input, on any input whose trimmed and
uppercased form is not exactly 17 characters, and on any input whose trimmed
and uppercased form contains `I`, `O` or `Q`, regardless of the checksum. -/
theorem isValidVIN_rejects (v : List Char) :
    isValidVIN none = false ∧
    (((trim v).map toUpperChar).length ≠ 17 → isValidVIN (some v) = false) ∧
    ((∃ c ∈ (trim v).map toUpperChar, c = 'I' ∨ c = 'O' ∨ c = 'Q') →
      isValidVIN (some v) = false) := by
  refine ⟨rfl, fun hlen => ?_, fun hioq => ?_⟩
  · unfold isValidVIN
    cases hv : v.isEmpty with
    | true => simp [hv]
    | false =>
      rw [List.length_map] at hlen
      simp [hv, hlen]
  · unfold isValidVIN
    cases hv : v.isEmpty with
    | true => simp [hv]
    | false =>
      by_cases hlen : ((trim v).map toUpperChar).length = 17
      · have hany : ((trim v).map toUpperChar).any
            (fun c => c == 'I' || c == 'O' || c == 'Q') = true := by
          obtain ⟨c, hc, hor⟩ := hioq
          refine List.any_eq_true.mpr ⟨c, hc, ?_⟩
          rcases hor with h | h | h <;> simp [h]
        simp [hv, hlen, hany]
      · rw [List.length_map] at hlen
        simp [hv, hlen]

/-- Witness for C5: a 16-character candidate and a candidate containing `Q`
are both rejected. -/
theorem isValidVIN_rejects_witness :
    isValidVIN (some ("1HGBH41JXMN10918".data)) = false ∧
    isValidVIN (some ("1HGBH41JQMN109186".data)) = false :=
  ⟨(isValidVIN_rejects _).2.1 (by decide), (isValidVIN_rejects _).2.2 (by decide)⟩

/-- C1: on a 17-character string over the VIN alphabet (digits and uppercase
letters except `I`, `O`, `Q`), `isValidVIN` accepts exactly when the character
at index 8 is the computed check digit. -/
theorem isValidVIN_iff_checkDigit (s : List Char) (hlen : s.length = 17)
    (halpha : ∀ c ∈ s,
      ((48 ≤ c.toNat ∧ c.toNat ≤ 57) ∨ (65 ≤ c.toNat ∧ c.toNat ≤ 90)) ∧
      c ≠ 'I' ∧ c ≠ 'O' ∧ c ≠ 'Q') :
    isValidVIN (some s) = true ↔ s[8]? = some (computeVINCheckDigit s) := by
  have htrim : trim s = s := by
    refine trim_eq_self fun c hc => ?_
    have h1 := (halpha c hc).1
    simp only [jsWhitespace, decide_eq_false_iff_not]
    omega
  have hup : s.map toUpperChar = s := by
    have : s.map toUpperChar = s.map id :=
      List.map_congr_left fun c hc => by
        have h1 := (halpha c hc).1
        exact toUpperChar_eq_self (by omega)
    rw [this, List.map_id]
  have hne : s.isEmpty = false := by
    cases s with
    | nil => simp at hlen
    | cons a t => rfl
  have hany : s.any (fun c => c == 'I' || c == 'O' || c == 'Q') = false := by
    refine List.any_eq_false.mpr fun c hc => ?_
    have h3 := (halpha c hc).2
    simp [h3.1, h3.2.1, h3.2.2]
  rw [isValidVIN_of_clean htrim hup hne hlen hany]
  exact beq_iff_eq

/-- Witness for C1 at the published reference VIN. -/
theorem isValidVIN_iff_checkDigit_witness :
    (isValidVIN (some ("1HGBH41JXMN109186".data)) = true ↔
      ("1HGBH41JXMN109186".data)[8]? =
        some (computeVINCheckDigit ("1HGBH41JXMN109186".data))) :=
  isValidVIN_iff_checkDigit _ (by decide) (by decide)

/-- C6: `computeVINCheckDigit` (a function, hence deterministic) is
case-insensitive: on a 17-character string it agrees with its value on the
lowercased string. -/
theorem computeVINCheckDigit_case_insensitive (s : List Char)
    (_hlen : s.length = 17) :
    computeVINCheckDigit s = computeVINCheckDigit (s.map toLowerChar) := by
  unfold computeVINCheckDigit
  rw [List.map_map]
  have h : s.map (toUpperChar ∘ toLowerChar) = s.map toUpperChar :=
    List.map_congr_left fun c _ => toUpperChar_toLowerChar c
  rw [h]

/-- Witness for C6 at the reference VIN. -/
theorem computeVINCheckDigit_case_insensitive_witness :
    computeVINCheckDigit ("1HGBH41JXMN109186".data) =
      computeVINCheckDigit (("1HGBH41JXMN109186".data).map toLowerChar) :=
  computeVINCheckDigit_case_insensitive _ (by decide)

/-- C2: on 17-character inputs, `computeVINCheckDigit` agrees with the
reference algorithm as the spec words it (`specCheckDigit`). -/
theorem computeVINCheckDigit_matches_spec (vin : List Char)
    (hlen : vin.length = 17) :
    computeVINCheckDigit vin = specCheckDigit vin := by
  have hsum : vinSum (vin.map toUpperChar)
      = ((List.range 17).map fun i =>
          transliterate ((vin.map toUpperChar).getD i ' ') * specWeights.getD i 0).sum := by
    rw [vinSum_eq_sum]
    refine congrArg List.sum (List.map_congr_left fun i hi => ?_)
    have hi17 : i < 17 := List.mem_range.mp hi
    have hiu : i < (vin.map toUpperChar).length := by
      rw [List.length_map, hlen]; exact hi17
    unfold contrib
    rw [List.getElem?_eq_getElem hiu]
    have hgd : (vin.map toUpperChar).getD i ' ' = (vin.map toUpperChar)[i] := by
      simp [List.getD, List.getElem?_eq_getElem hiu]
    rw [hgd]
    rfl
  unfold computeVINCheckDigit specCheckDigit
  rw [hsum]

/-- Witness for C2 at the reference VIN. -/
theorem computeVINCheckDigit_matches_spec_witness :
    computeVINCheckDigit ("1HGBH41JXMN109186".data) =
      specCheckDigit ("1HGBH41JXMN109186".data) :=
  computeVINCheckDigit_matches_spec _ (by decide)

/-- The check-digit alphabet absorbs every remainder below 10. -/
lemma digitChar_mem : ∀ r : Nat, r < 10 →
    Char.ofNat (48 + r) ∈ ['0', '1', '2', '3', '4', '5', '6', '7', '8', '9', 'X'] := by
  decide

/-- The rendered remainder always lands in the check-digit alphabet. -/
lemma checkDigit_mem_aux (S : Nat) :
    (if S % 11 = 10 then 'X' else Char.ofNat (48 + S % 11)) ∈
      ['0', '1', '2', '3', '4', '5', '6', '7', '8', '9', 'X'] := by
  by_cases h : S % 11 = 10
  · simp [h]
  · have hlt : S % 11 < 11 := Nat.mod_lt _ (by omega)
    rw [if_neg h]
    exact digitChar_mem _ (by omega)

/-- C10: `computeVINCheckDigit` is total over strings of every length: it
always returns a character in `{0..9, X}`; characters beyond index 16 are
ignored (truncating to 17 characters changes nothing); and each position past
the end of a short input contributes 0 to the weighted sum (padding a short
input with characters that transliterate to 0 changes nothing). -/
theorem computeVINCheckDigit_total (s : List Char) :
    computeVINCheckDigit s ∈ ['0', '1', '2', '3', '4', '5', '6', '7', '8', '9', 'X'] ∧
    computeVINCheckDigit s = computeVINCheckDigit (s.take 17) ∧
    (s.length ≤ 17 →
      computeVINCheckDigit s =
        computeVINCheckDigit (s ++ List.replicate (17 - s.length) ' ')) := by
  refine ⟨?_, ?_, fun hle => ?_⟩
  · exact checkDigit_mem_aux (vinSum (s.map toUpperChar))
  · refine computeVINCheckDigit_congr (vinSum_congr fun i hi => ?_)
    have hq : ((s.take 17).map toUpperChar)[i]? = (s.map toUpperChar)[i]? := by
      rw [List.map_take, List.getElem?_take_of_lt hi]
    unfold contrib
    rw [hq]
  · refine computeVINCheckDigit_congr (vinSum_congr fun i hi => ?_)
    have hsp : toUpperChar ' ' = ' ' := by decide
    have hmap : ((s ++ List.replicate (17 - s.length) ' ').map toUpperChar)
        = s.map toUpperChar ++ List.replicate (17 - s.length) ' ' := by
      rw [List.map_append, List.map_replicate, hsp]
    unfold contrib
    rw [hmap]
    by_cases hil : i < s.length
    · rw [List.getElem?_append_left (by simpa using hil)]
    · have h1 : (s.map toUpperChar)[i]? = none :=
        List.getElem?_eq_none (by simpa using Nat.le_of_not_lt hil)
      have h2 : (s.map toUpperChar ++ List.replicate (17 - s.length) ' ')[i]? =
          some ' ' := by
        rw [List.getElem?_append_right (by simpa using Nat.le_of_not_lt hil),
          List.length_map]
        exact List.getElem?_replicate_of_lt (by omega)
      rw [h1, h2]
      simp [show transliterate ' ' = 0 from by decide]

/-- Witness for C10: padding a 2-character input to 17 characters with
blanks leaves the check digit unchanged. -/
theorem computeVINCheckDigit_total_witness :
    computeVINCheckDigit ("AB".data) =
      computeVINCheckDigit ("AB".data ++ List.replicate (17 - ("AB".data).length) ' ') :=
  (computeVINCheckDigit_total _).2.2 (by decide)

/-- `findSome?` over a contiguous index range returns `f i` when `i` is the
first in-range index whose result is `some`. -/
lemma findSome?_range'_first {β : Type} (f : Nat → Option β) :
    ∀ (len s i : Nat), s ≤ i → i < s + len →
      (∀ j, s ≤ j → j < i → f j = none) → (f i).isSome →
      (List.range' s len).findSome? f = f i := by
  intro len
  induction len with
  | zero => intro s i h1 h2 _ _; omega
  | succ m ih =>
    intro s i h1 h2 hnone hsome
    rw [List.range'_succ]
    by_cases heq : i = s
    · subst heq
      exact List.findSome?_cons_of_isSome _ hsome
    · have hfs : f s = none := hnone s le_rfl (by omega)
      rw [List.findSome?_cons_of_isNone _ (by simp [hfs])]
      exact ih (s + 1) i (by omega) (by omega)
        (fun j hj1 hj2 => hnone j (by omega) hj2) hsome

/-- Uppercasing an alphanumeric character lands on a digit or an uppercase
letter. -/
lemma toUpperChar_alnum {c : Char} (h : isAlnumAscii c = true) :
    (48 ≤ (toUpperChar c).toNat ∧ (toUpperChar c).toNat ≤ 57) ∨
    (65 ≤ (toUpperChar c).toNat ∧ (toUpperChar c).toNat ≤ 90) := by
  simp only [isAlnumAscii, decide_eq_true_eq] at h
  by_cases h97 : 97 ≤ c.toNat ∧ c.toNat ≤ 122
  · unfold toUpperChar
    rw [if_pos h97, toNat_ofNat_valid _ (by omega)]
    omega
  · rw [toUpperChar_eq_self h97]
    omega

/-- C3: `extractVIN` returns the absence signal exactly when no 17-character
window of the normalized text validates, and returns the window at the
smallest offset whenever that window validates and every earlier one does
not. -/
theorem extractVIN_leftmost (text : List Char) :
    (extractVIN text = none ↔
      ∀ i, i + 17 ≤ (cleanText text).length →
        isValidVIN (some (window (cleanText text) i)) = false) ∧
    (∀ i, i + 17 ≤ (cleanText text).length →
      isValidVIN (some (window (cleanText text) i)) = true →
      (∀ j, j < i → isValidVIN (some (window (cleanText text) j)) = false) →
      extractVIN text = some (window (cleanText text) i)) := by
  constructor
  · unfold extractVIN
    rw [List.findSome?_eq_none_iff]
    constructor
    · intro h i hi
      have hres := h i (List.mem_range.mpr (by omega))
      unfold extractCandidate at hres
      cases hb : isValidVIN (some (window (cleanText text) i)) with
      | false => rfl
      | true => rw [hb] at hres; simp at hres
    · intro h i hmem
      have hi := List.mem_range.mp hmem
      unfold extractCandidate
      rw [h i (by omega)]
      simp
  · intro i hi hvalid hbefore
    unfold extractVIN
    rw [List.range_eq_range']
    have hres : extractCandidate (cleanText text) i =
        some (window (cleanText text) i) := by
      unfold extractCandidate
      rw [hvalid]
      simp
    rw [findSome?_range'_first (extractCandidate (cleanText text))
      ((cleanText text).length + 1 - 17) 0 i (Nat.zero_le i) (by omega)
      (fun j _ hj => by unfold extractCandidate; rw [hbefore j hj]; simp)
      (by rw [hres]; rfl), hres]

/-- Witness for C3: on the labelled example the valid window sits at offset 8
and every earlier window fails, so it is returned. -/
theorem extractVIN_leftmost_witness :
    extractVIN ("Label:ABC 1HGBH41JXMN109186 End".data) =
      some (window (cleanText ("Label:ABC 1HGBH41JXMN109186 End".data)) 8) :=
  (extractVIN_leftmost _).2 8 (by decide) (by decide) (by decide)

/-- C9: whenever `extractVIN` returns a string, that string has length 17,
consists only of digits and uppercase letters, contains none of `I`, `O`,
`Q`, and satisfies `isValidVIN`. -/
theorem extractVIN_sound (text w : List Char) (h : extractVIN text = some w) :
    w.length = 17 ∧
    (∀ c ∈ w, (48 ≤ c.toNat ∧ c.toNat ≤ 57) ∨ (65 ≤ c.toNat ∧ c.toNat ≤ 90)) ∧
    (∀ c ∈ w, c ≠ 'I' ∧ c ≠ 'O' ∧ c ≠ 'Q') ∧
    isValidVIN (some w) = true := by
  unfold extractVIN at h
  obtain ⟨i, hmem, hfi⟩ := List.exists_of_findSome?_eq_some h
  have hi := List.mem_range.mp hmem
  unfold extractCandidate at hfi
  cases hb : isValidVIN (some (window (cleanText text) i)) with
  | false => rw [hb] at hfi; simp at hfi
  | true =>
    rw [hb] at hfi
    simp only [if_pos] at hfi
    obtain rfl : window (cleanText text) i = w := by simpa using hfi
    have hlen : (window (cleanText text) i).length = 17 := by
      unfold window
      rw [List.length_take, List.length_drop]
      omega
    have halnum : ∀ c ∈ window (cleanText text) i,
        (48 ≤ c.toNat ∧ c.toNat ≤ 57) ∨ (65 ≤ c.toNat ∧ c.toNat ≤ 90) := by
      intro c hc
      have hmemc : c ∈ cleanText text :=
        List.mem_of_mem_drop (List.mem_of_mem_take hc)
      unfold cleanText at hmemc
      obtain ⟨c₀, hc₀, rfl⟩ := List.mem_map.mp hmemc
      exact toUpperChar_alnum (List.mem_filter.mp hc₀).2
    have htrim : trim (window (cleanText text) i) = window (cleanText text) i := by
      refine trim_eq_self fun c hc => ?_
      have := halnum c hc
      simp only [jsWhitespace, decide_eq_false_iff_not]
      omega
    have hup : (window (cleanText text) i).map toUpperChar =
        window (cleanText text) i := by
      have he : (window (cleanText text) i).map toUpperChar =
          (window (cleanText text) i).map id :=
        List.map_congr_left fun c hc => by
          have := halnum c hc
          exact toUpperChar_eq_self (by omega)
      rw [he, List.map_id]
    have hanyF : (window (cleanText text) i).any
        (fun c => c == 'I' || c == 'O' || c == 'Q') = false := by
      cases hany : (window (cleanText text) i).any
          (fun c => c == 'I' || c == 'O' || c == 'Q') with
      | false => rfl
      | true =>
        have hfalse := isValidVIN_false_of_ioq htrim hup hany
        rw [hfalse] at hb
        exact absurd hb (by simp)
    refine ⟨hlen, halnum, fun c hc => ?_, hb⟩
    have := List.any_eq_false.mp hanyF c hc
    simp only [Bool.or_eq_true, beq_iff_eq, not_or] at this
    exact ⟨this.1.1, this.1.2, this.2⟩

/-- Witness for C9 at the labelled example input. -/
theorem extractVIN_sound_witness :
    ("1HGBH41JXMN109186".data).length = 17 ∧
    (∀ c ∈ "1HGBH41JXMN109186".data,
      (48 ≤ c.toNat ∧ c.toNat ≤ 57) ∨ (65 ≤ c.toNat ∧ c.toNat ≤ 90)) ∧
    (∀ c ∈ "1HGBH41JXMN109186".data, c ≠ 'I' ∧ c ≠ 'O' ∧ c ≠ 'Q') ∧
    isValidVIN (some ("1HGBH41JXMN109186".data)) = true :=
  extractVIN_sound ("Label:ABC 1HGBH41JXMN109186 End".data) _ (by decide)

/-! ## Concrete scenarios listed in the specification -/

example : transliterate '7' = 7 := by decide
example : transliterate 'Z' = 9 := by decide
example : transliterate '#' = 0 := by decide
example : computeVINCheckDigit ("1HGBH41JXMN109186".data) = 'X' := by decide
example : isValidVIN (some ("1HGBH41JXMN109186".data)) = true := by decide
example : isValidVIN (some ("1HGBH41JXMN109187".data)) = false := by decide
example : isValidVIN (some ("1HGBH41JQMN109186".data)) = false := by decide
example : isValidVIN (some ("#0000000000000000".data)) = true := by decide
example : extractVIN ("Label:ABC 1HGBH41JXMN109186 End".data) =
    some ("1HGBH41JXMN109186".data) := by decide
example : extractVIN ("no vin here".data) = none := by decide

end VINScanner
